import Mathlib

/-!
Shallow embedding of `src/scripts/join_reviews.py`, a single-pass streaming
ETL pipeline that joins a product-metadata dataset with a review dataset,
normalizes prices / dates / HTML text, and emits one JSON record per review.

Modelling conventions:
* Python strings are `String`; `str.strip()` is `pystrip` (ASCII whitespace;
  the stdlib also strips some unicode spaces, which no property here uses).
* Python floats are modelled as exact rationals `ℚ`; every numeric literal in
  the properties below is exactly representable at the precision the spec
  quotes, so IEEE rounding is abstracted away.
* JSON objects are modelled as typed rows.  For metadata rows the outer
  `Option` of a doubly-optional field records whether the key is present in
  the JSON object (this drives the `k in obj` projection and the dict
  truthiness test); the inner `Option` records a JSON `null` value.
  For review rows a JSON `null` is conflated with an absent key: the script
  only reads review fields through `.get`, where the two are observationally
  identical for every property below.
* Code that can raise an uncaught Python exception is given an `Except`
  result; `Except.error ()` models the run aborting.
-/

/-- Whitespace set of Python `str.strip()` (ASCII part). -/
def pyIsSpace (c : Char) : Bool :=
  c == ' ' || c == '\t' || c == '\n' || c == '\r' || c == '\x0b' || c == '\x0c'

/-- Drop leading whitespace of a char list. -/
def stripL (l : List Char) : List Char := l.dropWhile pyIsSpace

/-- Drop trailing whitespace of a char list. -/
def stripR (l : List Char) : List Char := (l.reverse.dropWhile pyIsSpace).reverse

/-- Model of Python `str.strip()`. -/
def pystrip (s : String) : String := String.mk (stripR (stripL s.data))

/-- Model of Python `sep.join(items)`. -/
def pyjoin (sep : String) : List String → String
  | [] => ""
  | [s] => s
  | s :: t :: rest => s ++ sep ++ pyjoin sep (t :: rest)

/-- Decimal digits of a natural number (fuel-based recursion on `n / 10`). -/
def natToStrAux : Nat → Nat → List Char
  | 0, _ => []
  | _ + 1, 0 => []
  | fuel + 1, n + 1 => natToStrAux fuel ((n + 1) / 10) ++ [Char.ofNat (48 + (n + 1) % 10)]

/-- Model of Python `str(n)` for a nonnegative integer. -/
def natToStr (n : Nat) : String :=
  if n = 0 then "0" else String.mk (natToStrAux (n + 1) n)

/-- Model of Python `str(i)` for an integer. -/
def intToStr (i : Int) : String :=
  if i < 0 then "-" ++ natToStr i.natAbs else natToStr i.natAbs

/-- Zero-pad to two digits, as `strftime` `%m` / `%d` do. -/
def pad2 (n : Nat) : String := if n < 10 then "0" ++ natToStr n else natToStr n

/-- Zero-pad to four digits, as `strftime` `%Y` renders the years 1..9999
that `datetime` admits. -/
def pad4 (n : Nat) : String :=
  if n < 10 then "000" ++ natToStr n
  else if n < 100 then "00" ++ natToStr n
  else if n < 1000 then "0" ++ natToStr n
  else natToStr n

/-- Value of a decimal digit string. -/
def digitsToNat (l : List Char) : Nat :=
  l.foldl (fun n c => 10 * n + (c.toNat - 48)) 0

/-- Exact value of `intpart.fracpart`. -/
def decToRat (ip fp : List Char) : ℚ :=
  (digitsToNat ip : ℚ) + (digitsToNat fp : ℚ) / (10 : ℚ) ^ fp.length

/-!
Price normalizer: `parse_price` (src lines 15-39).

The input of `parse_price` is a raw JSON field value: absent/`null`, a string,
or a number.  Numeric inputs are modelled as integers; the only numeric input
any property mentions is `0`, and Python treats `0` and `0.0` identically in
the leading truthiness guard.
-/

/-- Raw JSON value fed to `parse_price`. -/
inductive PVal where
  | null
  | s (v : String)
  | i (v : Int)
deriving DecidableEq

/-- Python falsiness of a `PVal` (`if not price_str`). -/
def pvalFalsy : PVal → Bool
  | .null => true
  | .s v => v == ""
  | .i n => n == 0

/-- Model of Python `str(...)` on a `PVal`. -/
def pvalStr : PVal → String
  | .null => "None"
  | .s v => v
  | .i n => intToStr n

/-- Alternatives of the regex at one position: `\d+(?:\.\d+)?` first, then
`\.\d+`.  The trailing `(?!\d)` is automatically satisfied because both digit
runs are maximal. -/
def numAt (l : List Char) : Option (List Char) :=
  if l.takeWhile Char.isDigit = [] then
    match l with
    | c :: r2 =>
      if c = '.' then
        if r2.takeWhile Char.isDigit = [] then none
        else some ('.' :: r2.takeWhile Char.isDigit)
      else none
    | [] => none
  else
    match l.dropWhile Char.isDigit with
    | c :: r2 =>
      if c = '.' then
        if r2.takeWhile Char.isDigit = [] then some (l.takeWhile Char.isDigit)
        else some (l.takeWhile Char.isDigit ++ '.' :: r2.takeWhile Char.isDigit)
      else some (l.takeWhile Char.isDigit)
    | [] => some (l.takeWhile Char.isDigit)

/-- Leftmost match of `(?<!\d)(\d+(?:\.\d+)?|\.\d+)(?!\d)`: scan positions
left to right; the boolean argument records whether the previous character is
a digit (the lookbehind). -/
def findNum : Bool → List Char → Option (List Char)
  | _, [] => none
  | prevDigit, c :: rest =>
    if prevDigit then findNum c.isDigit rest
    else
      match numAt (c :: rest) with
      | some m => some m
      | none => findNum c.isDigit rest

/-- Model of Python `float(...)` restricted to the `digits[.digits]` /
`.digits` shapes; `none` models the `ValueError` branch.  Every string the
regex match can produce is of one of these shapes, so the full float grammar
is never reached. -/
def pyfloat (l : List Char) : Option ℚ :=
  match l.dropWhile Char.isDigit with
  | [] =>
    if l.takeWhile Char.isDigit = [] then none
    else some (digitsToNat (l.takeWhile Char.isDigit) : ℚ)
  | '.' :: fp =>
    if fp.all Char.isDigit ∧ fp ≠ [] ∧ l.takeWhile Char.isDigit ≠ [] then
      some (decToRat (l.takeWhile Char.isDigit) fp)
    else none
  | _ => none

/-- The leading-zero normalization: a match starting with a decimal point
gets a `'0'` prepended (`".99"` becomes `"0.99"`). -/
def normNum (num : List Char) : List Char :=
  match num with
  | '.' :: _ => '0' :: num
  | _ => num

/-- Model of `parse_price` (src lines 15-39).  The locals `s` (the stripped
string form) and `s2` (after comma removal) of the source are written out
inline. -/
def parse_price (price : PVal) : Option ℚ :=
  if pvalFalsy price then none
  else
    if pystrip (pvalStr price) = "." ∨ pystrip (pvalStr price) = "-" ∨
        pystrip (pvalStr price) = "N/A" ∨ pystrip (pvalStr price) = "na" ∨
        pystrip (pvalStr price) = "NA" ∨ pystrip (pvalStr price) = "" then none
    else
      match findNum false ((pystrip (pvalStr price)).data.filter (fun c => c ≠ ',')) with
      | none => none
      | some num => pyfloat (normNum num)

example : parse_price (.s "") = none := by decide
example : parse_price (.s "N/A") = none := by decide
example : parse_price (.i 0) = none := by decide
example : parse_price (.s "$19.99") = some (1999 / 100 : ℚ) := by
  have h : parse_price (.s "$19.99") = some (decToRat ['1','9'] ['9','9']) := rfl
  have h1 : digitsToNat ['1','9'] = 19 := rfl
  have h2 : digitsToNat ['9','9'] = 99 := rfl
  rw [h]; simp only [decToRat, h1, h2]; norm_num
example : parse_price (.s "1,234.50") = some (2469 / 2 : ℚ) := by
  have h : parse_price (.s "1,234.50") = some (decToRat ['1','2','3','4'] ['5','0']) := rfl
  have h1 : digitsToNat ['1','2','3','4'] = 1234 := rfl
  have h2 : digitsToNat ['5','0'] = 50 := rfl
  rw [h]; simp only [decToRat, h1, h2]; norm_num
example : parse_price (.s ".99") = some (99 / 100 : ℚ) := by
  have h : parse_price (.s ".99") = some (decToRat ['0'] ['9','9']) := rfl
  have h1 : digitsToNat ['0'] = 0 := rfl
  have h2 : digitsToNat ['9','9'] = 99 := rfl
  rw [h]; simp only [decToRat, h1, h2]; norm_num
example : parse_price (.s "0") = some 0 := by
  have h : parse_price (.s "0") = some (digitsToNat ['0'] : ℚ) := rfl
  have h1 : digitsToNat ['0'] = 0 := rfl
  rw [h, h1]; norm_num

/-!
Date normalizer: `parse_date` (src lines 41-49).

`datetime.utcfromtimestamp` interprets an epoch-second count in UTC via the
proleptic Gregorian calendar and raises an uncaught exception when the
resulting year falls outside `datetime`'s range 1..9999; this partiality is
modelled with `Except`.  `strptime(s, "%m %d, %Y")` is modelled after the
regex the stdlib builds for that format: month matches `1[0-2]|0[1-9]|[1-9]`,
day matches `3[01]|[12][0-9]|0[1-9]|[1-9]`, the year exactly four digits,
format whitespace matches one-or-more whitespace characters, the whole input
must be consumed, and the resulting day is then validated against the length
of the month (a failure is caught and becomes `None`).
-/

/-- View of an exception-or-result value as a sum, to derive decidable
equality. -/
def exceptToSum {ε α : Type} : Except ε α → Sum ε α
  | .error e => .inl e
  | .ok a => .inr a

instance {ε α : Type} [DecidableEq ε] [DecidableEq α] : DecidableEq (Except ε α) := fun a b =>
  decidable_of_iff (exceptToSum a = exceptToSum b) (by
    cases a <;> cases b <;> simp [exceptToSum])

/-- Proleptic-Gregorian civil date from a count of days since 1970-01-01
(Howard Hinnant's algorithm, total on all of `Int`). -/
def civilFromDays (z0 : Int) : Int × Int × Int :=
  let z := z0 + 719468
  let era : Int := z.fdiv 146097
  let doe : Int := z - era * 146097
  let yoe : Int := (doe - doe.fdiv 1460 + doe.fdiv 36524 - doe.fdiv 146096).fdiv 365
  let y : Int := yoe + era * 400
  let doy : Int := doe - (365 * yoe + yoe.fdiv 4 - yoe.fdiv 100)
  let mp : Int := (5 * doy + 2).fdiv 153
  let d : Int := doy - (153 * mp + 2).fdiv 5 + 1
  let m : Int := if mp < 10 then mp + 3 else mp - 9
  (if m ≤ 2 then y + 1 else y, m, d)

/-- Model of `datetime.utcfromtimestamp(t).date()`: the UTC calendar date of
an epoch timestamp, raising when the year leaves `datetime`'s 1..9999 range. -/
def utcfromtimestamp (t : Int) : Except Unit (Int × Int × Int) :=
  let c := civilFromDays (t.fdiv 86400)
  if 1 ≤ c.1 ∧ c.1 ≤ 9999 then .ok c else .error ()

/-- Model of `strftime("%Y-%m-%d")` on a date with year in 1..9999. -/
def formatYMD (c : Int × Int × Int) : String :=
  pad4 c.1.toNat ++ "-" ++ pad2 c.2.1.toNat ++ "-" ++ pad2 c.2.2.toNat

/-- Gregorian leap-year test. -/
def isLeap (y : Int) : Bool := (y % 4 == 0 && y % 100 != 0) || y % 400 == 0

/-- Length of a month, as `datetime(year, month, day)` validates it. -/
def daysInMonth (y : Int) (m : Nat) : Nat :=
  match m with
  | 1 => 31 | 2 => if isLeap y then 29 else 28 | 3 => 31 | 4 => 30
  | 5 => 31 | 6 => 30 | 7 => 31 | 8 => 31 | 9 => 30 | 10 => 31
  | 11 => 30 | 12 => 31 | _ => 0

/-- First alternative of a candidate list that succeeds (regex backtracking
over an ordered alternation). -/
def firstSome {α : Type} : List (Option α) → Option α
  | [] => none
  | some a :: _ => some a
  | none :: rest => firstSome rest

/-- Consume one-or-more whitespace characters (the regex `\s+` that stdlib
strptime substitutes for whitespace in the format). -/
def wsPlus (l : List Char) : Option (List Char) :=
  match l with
  | c :: rest => if pyIsSpace c then some (rest.dropWhile pyIsSpace) else none
  | [] => none

/-- Candidates of the `%m` regex `1[0-2]|0[1-9]|[1-9]`, in alternation
order. -/
def monthAlts (l : List Char) : List (Nat × List Char) :=
  (match l with
   | '1' :: c :: rest =>
     if '0' ≤ c ∧ c ≤ '2' then [(10 + (c.toNat - 48), rest)] else []
   | _ => []) ++
  (match l with
   | '0' :: c :: rest =>
     if '1' ≤ c ∧ c ≤ '9' then [(c.toNat - 48, rest)] else []
   | _ => []) ++
  (match l with
   | c :: rest => if '1' ≤ c ∧ c ≤ '9' then [(c.toNat - 48, rest)] else []
   | _ => [])

/-- Candidates of the `%d` regex `3[01]|[12][0-9]|0[1-9]|[1-9]`, in
alternation order. -/
def dayAlts (l : List Char) : List (Nat × List Char) :=
  (match l with
   | '3' :: c :: rest =>
     if '0' ≤ c ∧ c ≤ '1' then [(30 + (c.toNat - 48), rest)] else []
   | _ => []) ++
  (match l with
   | c1 :: c :: rest =>
     if ('1' ≤ c1 ∧ c1 ≤ '2') ∧ c.isDigit then
       [(10 * (c1.toNat - 48) + (c.toNat - 48), rest)]
     else []
   | _ => []) ++
  (match l with
   | '0' :: c :: rest =>
     if '1' ≤ c ∧ c ≤ '9' then [(c.toNat - 48, rest)] else []
   | _ => []) ++
  (match l with
   | c :: rest => if '1' ≤ c ∧ c ≤ '9' then [(c.toNat - 48, rest)] else []
   | _ => [])

/-- The `%Y` regex: exactly four digits, which must end the input (strptime
rejects unconsumed trailing characters). -/
def yearParse (l : List Char) : Option Nat :=
  match l with
  | [a, b, c, d] =>
    if a.isDigit ∧ b.isDigit ∧ c.isDigit ∧ d.isDigit then
      some (digitsToNat [a, b, c, d])
    else none
  | _ => none

/-- Rest of the format after the day: literal comma, whitespace, year. -/
def afterDay (d : Nat) (l : List Char) : Option (Nat × Nat) :=
  match l with
  | ',' :: rest => (wsPlus rest).bind (fun r2 => (yearParse r2).map (fun y => (d, y)))
  | _ => none

/-- Rest of the format after the month: whitespace, day, comma, whitespace,
year, trying day alternatives in regex order. -/
def afterMonth (m : Nat) (l : List Char) : Option (Nat × Nat × Nat) :=
  (wsPlus l).bind fun r =>
    (firstSome ((dayAlts r).map (fun p => afterDay p.1 p.2))).map (fun p => (m, p.1, p.2))

/-- Model of `datetime.strptime(s, "%m %d, %Y")` up to (month, day, year)
extraction, before range validation of the day. -/
def strptimeMDY (s : String) : Option (Nat × Nat × Nat) :=
  firstSome ((monthAlts s.data).map (fun p => afterMonth p.1 p.2))

/-- Text-date branch of `parse_date`: strict `"MM DD, YYYY"` parse, with any
failure (including `datetime`'s day-of-month and year validation) caught and
turned into `None`. -/
def parseTextDate (s : String) : Option (Int × Int × Int) :=
  (strptimeMDY s).bind fun mdy =>
    if 1 ≤ mdy.2.2 ∧ 1 ≤ mdy.2.1 ∧ mdy.2.1 ≤ daysInMonth mdy.2.2 mdy.1 then
      some ((mdy.2.2 : Int), (mdy.1 : Int), (mdy.2.1 : Int))
    else none

/-- Shared fall-through path of `parse_date` when no truthy timestamp
exists. -/
def parse_date_text (review_time_str : Option String) : Option String :=
  match review_time_str with
  | none => none
  | some s => if s = "" then none else (parseTextDate s).map formatYMD

/-- Model of `parse_date` (src lines 41-49).  The `Except.error` result
models the uncaught exception `datetime.utcfromtimestamp` raises when the
timestamp's UTC year falls outside 1..9999. -/
def parse_date (review_time_str : Option String) (unix_ts : Option Int) :
    Except Unit (Option String) :=
  match unix_ts with
  | some t =>
    if t ≠ 0 then (utcfromtimestamp t).map (fun c => some (formatYMD c))
    else .ok (parse_date_text review_time_str)
  | none => .ok (parse_date_text review_time_str)

example : parse_date (some "anything") (some 1243296000) = .ok (some "2009-05-26") := by decide
example : parse_date (some "05 26, 2009") (some 0) = .ok (some "2009-05-26") := by decide
example : parse_date (some "13 99, 2009") none = .ok none := by decide
example : parse_date none (some 253402300800) = .error () := by decide
example : parse_date none (some 253402300799) = .ok (some "9999-12-31") := by decide
example : parse_date none (some (-62135596800)) = .ok (some "0001-01-01") := by decide
example : parse_date none (some (-62135596801)) = .error () := by decide
example : parse_date (some "02 30, 2009") none = .ok none := by decide
example : parse_date (some "12 8, 2024") none = .ok (some "2024-12-08") := by decide

/-!
Text sanitizer: `strip_html` (src lines 9-13): unescape HTML entities, then
substitute every occurrence of the regex `<[^>]+>` by a single space, then
strip.  `html.unescape` is modelled for the core named entities (the stdlib
table is far larger); no property below depends on entity replacement, and
the function is never invoked by the pipeline itself.
-/

/-- Model of `html.unescape` restricted to the core named entities. -/
def htmlUnescapeGo : List Char → List Char
  | [] => []
  | '&' :: 'a' :: 'm' :: 'p' :: ';' :: rest => '&' :: htmlUnescapeGo rest
  | '&' :: 'l' :: 't' :: ';' :: rest => '<' :: htmlUnescapeGo rest
  | '&' :: 'g' :: 't' :: ';' :: rest => '>' :: htmlUnescapeGo rest
  | '&' :: 'q' :: 'u' :: 'o' :: 't' :: ';' :: rest => '"' :: htmlUnescapeGo rest
  | '&' :: '#' :: '3' :: '9' :: ';' :: rest => '\'' :: htmlUnescapeGo rest
  | c :: rest => c :: htmlUnescapeGo rest

/-- Split a char list at its first `'>'`, returning the pieces before and
after it. -/
def splitAtGt : List Char → Option (List Char × List Char)
  | [] => none
  | c :: rest =>
    if c = '>' then some ([], rest)
    else (splitAtGt rest).map (fun p => (c :: p.1, p.2))

/-- Fuel-driven scan for `re.sub(r"<[^>]+>", " ", s)`: each occurrence of
`<`, one or more non-`>` characters, `>` is replaced by one space.  One unit
of fuel is spent per emitted character, so `l.length` fuel always
suffices. -/
def dropTagsGo : Nat → List Char → List Char
  | 0, l => l
  | _ + 1, [] => []
  | fuel + 1, c :: rest =>
    if c = '<' then
      match splitAtGt rest with
      | some p =>
        if p.1 = [] then '<' :: dropTagsGo fuel rest else ' ' :: dropTagsGo fuel p.2
      | none => '<' :: dropTagsGo fuel rest
    else c :: dropTagsGo fuel rest

/-- Model of `re.sub(r"<[^>]+>", " ", s)`. -/
def dropTags (l : List Char) : List Char := dropTagsGo l.length l

/-- Model of `strip_html` (src lines 9-13). -/
def strip_html (s : Option String) : String :=
  match s with
  | none => ""
  | some v =>
    if v = "" then ""
    else pystrip (String.mk (dropTags (htmlUnescapeGo v.data)))

example : strip_html (some "  <b>Hi</b>  ") = "Hi" := by decide
example : strip_html (some "a<b>c") = "a c" := by decide
example : strip_html none = "" := by decide

/-!
Data model.  Metadata source rows (`load_asin_meta`, src lines 51-75) and
review rows (`process_reviews`, src lines 102-141) are line-delimited JSON
objects; they are modelled as typed rows per the fields the script reads.
For metadata fields the outer `Option` records key presence (`k in obj`) and
the inner `Option` a JSON `null`; `rank` is copied verbatim and never
inspected, so its value is modelled as a string.  The `category` value may be
a JSON string or a sequence of strings.
-/

/-- Raw `category` value of a metadata row. -/
inductive CatVal where
  | s (v : String)
  | l (vs : List String)
deriving DecidableEq

/-- Parsed metadata source row, restricted to the fields the script reads. -/
structure MetaRow where
  asin : Option String := none
  title : Option (Option String) := none
  brand : Option (Option String) := none
  main_cat : Option (Option String) := none
  category : Option (Option CatVal) := none
  price : Option PVal := none
  rank : Option (Option String) := none
deriving DecidableEq

/-- Projected metadata record held in the index: the retained fields that
were present in the source row, with `price` parsed and a scalar `category`
wrapped into a one-element sequence (src lines 63-71). -/
structure MetaRec where
  title : Option (Option String) := none
  brand : Option (Option String) := none
  main_cat : Option (Option String) := none
  category : Option (Option (List String)) := none
  price : Option (Option ℚ) := none
  rank : Option (Option String) := none
deriving DecidableEq

/-- The empty projected record (Python `{}`). -/
def emptyRec : MetaRec := {}

/-- Python truthiness of a projected record (`not prod` is the negation):
a dict is truthy iff it has at least one key. -/
def truthy (r : MetaRec) : Bool :=
  r.title.isSome || r.brand.isSome || r.main_cat.isSome ||
  r.category.isSome || r.price.isSome || r.rank.isSome

/-- Field projection of one metadata row (src lines 62-71). -/
def projectRow (row : MetaRow) : MetaRec :=
  { title := row.title
    brand := row.brand
    main_cat := row.main_cat
    category := row.category.map (fun v =>
      match v with
      | some (.s c) => some [c]
      | some (.l cs) => some cs
      | none => none)
    price := row.price.map (fun v => parse_price v)
    rank := row.rank }

/-- One iteration of the index-building loop: a row with a falsy `asin` is
skipped, otherwise the projected record is stored under its `asin`
(last write wins). -/
def insertRow (m : String → Option MetaRec) (row : MetaRow) : String → Option MetaRec :=
  match row.asin with
  | some a => if a = "" then m else fun k => if k = a then some (projectRow row) else m k
  | none => m

/-- Fold of `insertRow` over the rows, in input order. -/
def loadGo : List MetaRow → (String → Option MetaRec) → (String → Option MetaRec)
  | [], m => m
  | row :: rest, m => loadGo rest (insertRow m row)

/-- Model of `load_asin_meta` (src lines 51-75) at the default `keep_fields`,
over the parsed non-blank lines of the metadata source.  `max_rows` models
the row cap (`if max_rows and i >= max_rows: break`: a cap of `0` is falsy
and means no cap; otherwise ingestion stops after that many input lines). -/
def load_asin_meta (rows : List MetaRow) (max_rows : Option Nat) : String → Option MetaRec :=
  let capped := match max_rows with
    | none => rows
    | some n => if n = 0 then rows else rows.take n
  loadGo capped (fun _ => none)

/-- Parsed review row, restricted to the fields the script reads.  A JSON
`null` is conflated with an absent key, which is observationally identical
through `.get` for every property below. -/
structure Review where
  asin : Option String := none
  reviewerID : Option String := none
  unixReviewTime : Option Int := none
  reviewTime : Option String := none
  overall : Option ℚ := none
  verified : Option Bool := none
  summary : Option String := none
  reviewText : Option String := none
deriving DecidableEq

/-!
Embedding-text builder: `make_embed_text` (src lines 77-100).
-/

/-- Python `x or default` on an optional string: `None` and `""` are falsy. -/
def pyOrStr (v : Option String) (d : String) : String :=
  match v with
  | some s => if s = "" then d else s
  | none => d

/-- Python `int(x)` on a number: truncation toward zero. -/
def pyint (q : ℚ) : Int :=
  let n : Nat := q.num.natAbs / q.den
  if q.num < 0 then -(n : Int) else (n : Int)

/-- The category line content: `(cats[0] if cats else main_cat) or
"Toys & Games"` (src lines 84-86). -/
def cat_line (prod : MetaRec) : String :=
  let cats := (prod.category.join).getD []
  let mainCat := (prod.main_cat.join).getD ""
  let c := match cats with
    | [] => mainCat
    | x :: _ => x
  if c = "" then "Toys & Games" else c

/-- The `title` local of `make_embed_text`: metadata title with the
`"ASIN {asin}"` fallback. -/
def titleOf (prod : MetaRec) (review : Review) : String :=
  pyOrStr prod.title.join ("ASIN " ++ review.asin.getD "")

/-- The brand suffix appended to the product line when `brand` is truthy. -/
def brandSuffixOf (prod : MetaRec) : String :=
  match prod.brand.join with
  | some b => if b = "" then "" else " (Brand: " ++ b ++ ")"
  | none => ""

/-- The stripped review body (`(review.get("reviewText") or "").strip()`). -/
def bodyOf (review : Review) : String := pystrip (review.reviewText.getD "")

/-- The stripped review summary. -/
def summaryOf (review : Review) : String := pystrip (review.summary.getD "")

/-- Line 1 of the parts list: `"Product: {title}"` plus optional brand. -/
def productPart (prod : MetaRec) (review : Review) : String :=
  "Product: " ++ titleOf prod review ++ brandSuffixOf prod

/-- Line 2 of the parts list: `"Category: {cat_line}"`. -/
def categoryPart (prod : MetaRec) : String := "Category: " ++ cat_line prod

/-- Line 3 of the parts list: the rating line, or `""` when the rating is
absent. -/
def ratingPart (review : Review) : String :=
  match review.overall with
  | some q =>
    "Rating: " ++ intToStr (pyint q) ++ " stars" ++
      (if review.verified.getD false then " (Verified Purchase)" else "")
  | none => ""

/-- Line 4 of the parts list: the summary line, or `""` when the stripped
summary is empty. -/
def summaryPart (review : Review) : String :=
  if summaryOf review = "" then "" else "Review Summary: " ++ summaryOf review

/-- Line 5 of the parts list: `"Full Review: {body}"`, always present. -/
def fullReviewRaw (review : Review) : String := "Full Review: " ++ bodyOf review

/-- Model of `make_embed_text` (src lines 77-100): render the per-line parts,
keep the truthy (non-empty) ones, join with newlines, strip the result. -/
def make_embed_text (prod : MetaRec) (review : Review) : String :=
  pystrip (pyjoin "\n"
    (([productPart prod review, categoryPart prod, ratingPart review,
       summaryPart review, fullReviewRaw review]).filter (fun p => p ≠ "")))

/-- Final form of the Full-Review component in the rendered text: the final
`.strip()` removes the trailing space of `"Full Review: "` exactly when the
stripped body is empty. -/
def fullReviewPart (review : Review) : String :=
  if bodyOf review = "" then "Full Review:" else "Full Review: " ++ bodyOf review

/-- Category fallback rule as the amended spec sentence words it: the first
element of the categories sequence when the sequence is non-empty and that
element is itself non-empty; the main category when the sequence is empty
and the main category is non-empty; the literal `"Toys & Games"` otherwise
(in particular a non-empty sequence whose first element is empty skips the
main category and goes straight to the default). -/
def categoryRule (prod : MetaRec) : String :=
  match (prod.category.join).getD [] with
  | [] =>
    if (prod.main_cat.join).getD "" = "" then "Toys & Games"
    else (prod.main_cat.join).getD ""
  | c :: _ => if c = "" then "Toys & Games" else c

/-!
Join and emit pipeline: `process_reviews` (src lines 102-141).  The input is
the list of parsed non-blank lines of the review source; the output is the
list of emitted records in write order together with the run counters.  An
`Except.error` result models the run aborting on an uncaught exception from
`parse_date` (in which case no counters are returned and the sink holds a
partial prefix).
-/

/-- Output record shape (one JSON line of the sink). -/
structure OutMeta where
  product_title : Option String
  brand : Option String
  main_cat : Option String
  categories : Option (List String)
  price : Option ℚ
  also_buy : Option (List String)
  also_view : Option (List String)
  review_time : Option String
  rating : Option ℚ
  verified : Option Bool
  review_summary : Option String
  review_text : Option String
deriving DecidableEq

/-- One emitted record. -/
structure OutRec where
  id : String
  asin : String
  embedding_text : String
  meta : OutMeta
deriving DecidableEq

/-- Run counters (printed as the stats object). -/
structure Stats where
  read : Nat
  written : Nat
  missing_meta : Nat
deriving DecidableEq

/-- The review's product identifier as the loop sees it: `r.get("asin")`
with the falsy values (`None`, `""`) leading to a silent skip. -/
def pyAsin (r : Review) : Option String :=
  match r.asin with
  | some a => if a = "" then none else some a
  | none => none

/-- Python `prod or {}` on the lookup result. -/
def pyOrRec (v : Option MetaRec) : MetaRec :=
  match v with
  | some rec => if truthy rec then rec else emptyRec
  | none => emptyRec

/-- Assemble the output record for an accepted review (src lines 119-137);
`rt` is the already-computed `parse_date` result. -/
def buildRec (a : String) (prod : MetaRec) (r : Review) (rt : Option String) : OutRec :=
  { id := a ++ "_" ++ r.reviewerID.getD "" ++ "_" ++
      (match r.unixReviewTime with
       | some t => intToStr t
       | none => "")
    asin := a
    embedding_text := make_embed_text prod r
    meta :=
      { product_title := prod.title.join
        brand := prod.brand.join
        main_cat := prod.main_cat.join
        categories := prod.category.join
        price := prod.price.join
        also_buy := none
        also_view := none
        review_time := rt
        rating := r.overall
        verified := r.verified
        review_summary := r.summary
        review_text := r.reviewText } }

/-- Outcome of one loop iteration for one review row. -/
inductive RowOut where
  | skip
  | dropped
  | written (rec : OutRec)
  | err
deriving DecidableEq

/-- One iteration of the review loop (src lines 107-138): skip on a falsy
`asin`; drop and count when the looked-up record is falsy and the drop
policy is on; otherwise emit unless `parse_date` raises. -/
def rowOutcome (m : String → Option MetaRec) (drop : Bool) (r : Review) : RowOut :=
  match pyAsin r with
  | none => .skip
  | some a =>
    let prodO := m a
    let falsy := match prodO with
      | none => true
      | some rec => !truthy rec
    if falsy && drop then .dropped
    else
      match parse_date r.reviewTime r.unixReviewTime with
      | .error _ => .err
      | .ok rt => .written (buildRec a (pyOrRec prodO) r rt)

/-- Tail-recursive review loop with the emitted records accumulated in
reverse and the three counters threaded through. -/
def processGo (m : String → Option MetaRec) (drop : Bool) :
    List Review → List OutRec → Nat → Nat → Nat → Except Unit (List OutRec × Stats)
  | [], acc, nin, nout, bad => .ok (acc.reverse, ⟨nin, nout, bad⟩)
  | r :: rest, acc, nin, nout, bad =>
    match rowOutcome m drop r with
    | .skip => processGo m drop rest acc (nin + 1) nout bad
    | .dropped => processGo m drop rest acc (nin + 1) nout (bad + 1)
    | .written rec => processGo m drop rest (rec :: acc) (nin + 1) (nout + 1) bad
    | .err => .error ()

/-- Model of `process_reviews` (src lines 102-141). -/
def process_reviews (m : String → Option MetaRec) (reviews : List Review)
    (drop_if_missing_meta : Bool) : Except Unit (List OutRec × Stats) :=
  processGo m drop_if_missing_meta reviews [] 0 0 0

/-- The whole run as `main` composes it (src lines 143-152), with the drop
policy exposed as the spec's configuration knob. -/
def pipeline (metaRows : List MetaRow) (reviews : List Review) (drop : Bool) :
    Except Unit (List OutRec × Stats) :=
  process_reviews (load_asin_meta metaRows none) reviews drop

/-- The record the loop writes for a given review row, if any. -/
def emitted (m : String → Option MetaRec) (drop : Bool) (r : Review) : Option OutRec :=
  match rowOutcome m drop r with
  | .written rec => some rec
  | _ => none

/-!
Helper lemmas: strings, stripping and joining.
-/

theorem str_eq_of_data {a b : String} (h : a.data = b.data) : a = b := by
  cases a; cases b; exact congrArg String.mk h

theorem data_empty : ("" : String).data = [] := rfl

theorem append_ne_empty_left (s t : String) (hs : s ≠ "") : s ++ t ≠ "" := by
  intro h
  apply hs
  have h2 := congrArg String.data h
  rw [String.data_append, data_empty] at h2
  exact str_eq_of_data (by rw [(List.append_eq_nil.mp h2).1, data_empty])

theorem pyjoin_cons_of_ne_nil (sep s : String) {l : List String} (h : l ≠ []) :
    pyjoin sep (s :: l) = s ++ sep ++ pyjoin sep l := by
  cases l with
  | nil => exact absurd rfl h
  | cons t rest => rfl

theorem stripL_cons_of_nonspace {c : Char} (hc : pyIsSpace c = false) (l : List Char) :
    stripL (c :: l) = c :: l := by
  simp [stripL, List.dropWhile_cons, hc]

theorem stripR_snoc_of_nonspace {c : Char} (hc : pyIsSpace c = false) (l : List Char) :
    stripR (l ++ [c]) = l ++ [c] := by
  simp [stripR, List.reverse_append, List.dropWhile_cons, hc]

theorem stripR_snoc_of_space {c : Char} (hc : pyIsSpace c = true) (l : List Char) :
    stripR (l ++ [c]) = stripR l := by
  simp [stripR, List.reverse_append, List.dropWhile_cons, hc]

theorem stripR_shape (l : List Char) :
    stripR l = [] ∨ ∃ l2 c, stripR l = l2 ++ [c] ∧ pyIsSpace c = false := by
  cases h : l.reverse.dropWhile pyIsSpace with
  | nil => left; simp [stripR, h]
  | cons c rest =>
    right
    refine ⟨rest.reverse, c, by simp [stripR, h], ?_⟩
    have h2 := List.head?_dropWhile_not pyIsSpace l.reverse
    rw [h] at h2
    simpa using h2

theorem pystrip_data (s : String) : (pystrip s).data = stripR (stripL s.data) := rfl

/-- A stripped string is empty or ends in a non-whitespace character. -/
theorem pystrip_shape (s : String) :
    (pystrip s).data = [] ∨
    ∃ l2 c, (pystrip s).data = l2 ++ [c] ∧ pyIsSpace c = false := by
  rw [pystrip_data]; exact stripR_shape _

theorem pystrip_eq_self_of {l : List Char}
    (h1 : ∃ c t, l = c :: t ∧ pyIsSpace c = false)
    (h2 : ∃ l2 c2, l = l2 ++ [c2] ∧ pyIsSpace c2 = false) :
    stripR (stripL l) = l := by
  obtain ⟨c, t, rfl, hc⟩ := h1
  obtain ⟨l2, c2, hlast, hc2⟩ := h2
  rw [stripL_cons_of_nonspace hc, hlast]
  exact stripR_snoc_of_nonspace hc2 _

theorem pystrip_drop_space_of {l : List Char} (l2 : List Char) (c2 : Char)
    (h1 : ∃ c t, l = c :: t ∧ pyIsSpace c = false)
    (hlast : l = (l2 ++ [c2]) ++ [' ']) (hc2 : pyIsSpace c2 = false) :
    stripR (stripL l) = l2 ++ [c2] := by
  obtain ⟨c, t, rfl, hc⟩ := h1
  rw [stripL_cons_of_nonspace hc, hlast, stripR_snoc_of_space (by decide),
    stripR_snoc_of_nonspace hc2]

/-- Joining `mids ++ [x]` splits the last element off after a fixed
separator-terminated preamble that does not depend on `x`. -/
theorem pyjoin_snoc_data (sep : String) (mids : List String) :
    ∃ pre : List Char,
      (∀ x : String, (pyjoin sep (mids ++ [x])).data = pre ++ x.data) ∧
      (pre = [] ∨ ∃ pre0, pre = pre0 ++ sep.data) := by
  induction mids with
  | nil => exact ⟨[], fun x => by simp [pyjoin], Or.inl rfl⟩
  | cons m rest ih =>
    obtain ⟨pre, hpre, hshape⟩ := ih
    refine ⟨m.data ++ sep.data ++ pre, fun x => ?_, ?_⟩
    · have hne : rest ++ [x] ≠ [] := by simp
      rw [List.cons_append, pyjoin_cons_of_ne_nil sep m hne]
      simp [String.data_append, hpre x, List.append_assoc]
    · cases hshape with
      | inl h0 => exact Or.inr ⟨m.data, by rw [h0, List.append_nil]⟩
      | inr h1 =>
        obtain ⟨pre0, hpre0⟩ := h1
        exact Or.inr ⟨m.data ++ sep.data ++ pre0, by
          rw [hpre0]; simp [List.append_assoc]⟩

/-- Structure of the rendered embedding text: the product line, the category
line, an optional middle section, and the Full-Review component last, with
the final strip folded into `fullReviewPart`. -/
theorem embed_split (prod : MetaRec) (review : Review) :
    ∃ pre : List Char,
      (make_embed_text prod review).data =
        (productPart prod review).data ++
          '\n' :: ((categoryPart prod).data ++
            '\n' :: (pre ++ (fullReviewPart review).data)) ∧
      (pre = [] ∨ ∃ pre0, pre = pre0 ++ ['\n']) := by
  have hP : productPart prod review ≠ "" := by
    unfold productPart
    exact append_ne_empty_left _ _ (append_ne_empty_left _ _ (by decide))
  have hC : categoryPart prod ≠ "" := by
    unfold categoryPart
    exact append_ne_empty_left _ _ (by decide)
  have hF : fullReviewRaw review ≠ "" := by
    unfold fullReviewRaw
    exact append_ne_empty_left _ _ (by decide)
  have hfilter :
      ([productPart prod review, categoryPart prod, ratingPart review,
        summaryPart review, fullReviewRaw review]).filter (fun p => p ≠ "") =
      productPart prod review :: categoryPart prod ::
        (([ratingPart review, summaryPart review]).filter (fun p => p ≠ "") ++
          [fullReviewRaw review]) := by
    by_cases hr : ratingPart review = "" <;> by_cases hs : summaryPart review = "" <;>
      simp [List.filter_cons, hP, hC, hF, hr, hs]
  obtain ⟨pre, hpre, hshape⟩ :=
    pyjoin_snoc_data "\n" (([ratingPart review, summaryPart review]).filter (fun p => p ≠ ""))
  have hME : make_embed_text prod review =
      pystrip (pyjoin "\n" (productPart prod review :: categoryPart prod ::
        (([ratingPart review, summaryPart review]).filter (fun p => p ≠ "") ++
          [fullReviewRaw review]))) := by
    unfold make_embed_text
    rw [hfilter]
  have hjoin : pyjoin "\n" (productPart prod review :: categoryPart prod ::
      (([ratingPart review, summaryPart review]).filter (fun p => p ≠ "") ++
        [fullReviewRaw review])) =
      productPart prod review ++ "\n" ++ (categoryPart prod ++ "\n" ++
        pyjoin "\n" (([ratingPart review, summaryPart review]).filter (fun p => p ≠ "") ++
          [fullReviewRaw review])) := by
    rw [pyjoin_cons_of_ne_nil _ _ (by simp), pyjoin_cons_of_ne_nil _ _ (by simp)]
  have hPd : ∃ t, (productPart prod review).data = 'P' :: t := by
    refine ⟨"roduct: ".data ++ (titleOf prod review).data ++ (brandSuffixOf prod).data, ?_⟩
    have h0 : ("Product: " : String).data = 'P' :: "roduct: ".data := rfl
    simp [productPart, String.data_append, h0, List.append_assoc]
  have hnl : ("\n" : String).data = ['\n'] := rfl
  have hdata : (productPart prod review ++ "\n" ++ (categoryPart prod ++ "\n" ++
      pyjoin "\n" (([ratingPart review, summaryPart review]).filter (fun p => p ≠ "") ++
        [fullReviewRaw review]))).data =
      (productPart prod review).data ++
        '\n' :: ((categoryPart prod).data ++
          '\n' :: (pre ++ (fullReviewRaw review).data)) := by
    rw [String.data_append, String.data_append, String.data_append, String.data_append,
      hpre (fullReviewRaw review), hnl]
    simp [List.append_assoc]
  have hwhole : (make_embed_text prod review).data =
      stripR (stripL ((productPart prod review).data ++
        '\n' :: ((categoryPart prod).data ++
          '\n' :: (pre ++ (fullReviewRaw review).data)))) := by
    rw [hME, pystrip_data, hjoin, hdata]
  obtain ⟨tP, htP⟩ := hPd
  have hhead : ∃ c t, ((productPart prod review).data ++
      '\n' :: ((categoryPart prod).data ++
        '\n' :: (pre ++ (fullReviewRaw review).data))) = c :: t ∧ pyIsSpace c = false := by
    refine ⟨'P', tP ++ '\n' :: ((categoryPart prod).data ++
      '\n' :: (pre ++ (fullReviewRaw review).data)), ?_, by decide⟩
    rw [htP]
    simp
  by_cases hbody : bodyOf review = ""
  · -- empty body: the final strip removes the trailing space of the raw part
    have hFP : fullReviewPart review = "Full Review:" := by
      unfold fullReviewPart
      rw [if_pos hbody]
    have hFraw : (fullReviewRaw review).data = "Full Review:".data ++ [' '] := by
      unfold fullReviewRaw
      rw [String.data_append, hbody]
      decide
    have hcolon : ("Full Review:" : String).data = "Full Review".data ++ [':'] := by decide
    refine ⟨pre, ?_, hshape⟩
    have hlasteq : ((productPart prod review).data ++
        '\n' :: ((categoryPart prod).data ++
          '\n' :: (pre ++ (fullReviewRaw review).data))) =
        (((productPart prod review).data ++
          '\n' :: ((categoryPart prod).data ++ '\n' :: (pre ++ "Full Review".data))) ++
          [':']) ++ [' '] := by
      rw [hFraw, hcolon]
      simp [List.append_assoc]
    rw [hwhole, pystrip_drop_space_of _ ':' hhead hlasteq (by decide), hFP]
    simp [hcolon, List.append_assoc]
  · -- non-empty body: the text already ends in a non-whitespace character
    have hFP : fullReviewPart review = fullReviewRaw review := by
      unfold fullReviewPart fullReviewRaw
      rw [if_neg hbody]
    have hbshape := pystrip_shape (review.reviewText.getD "")
    have hbdata : (bodyOf review).data = (pystrip (review.reviewText.getD "")).data := rfl
    cases hbshape with
    | inl h0 =>
      have hb0 : bodyOf review = "" := by
        apply str_eq_of_data
        rw [hbdata, h0]
      exact absurd hb0 hbody
    | inr h1 =>
      obtain ⟨l2, c2, hl2, hc2⟩ := h1
      refine ⟨pre, ?_, hshape⟩
      have hFdata : (fullReviewRaw review).data = "Full Review: ".data ++ (l2 ++ [c2]) := by
        unfold fullReviewRaw
        rw [String.data_append]
        rw [show (bodyOf review).data = l2 ++ [c2] from by rw [hbdata, ← hl2]]
      have h2 : ∃ ll cc, ((productPart prod review).data ++
          '\n' :: ((categoryPart prod).data ++
            '\n' :: (pre ++ (fullReviewRaw review).data))) = ll ++ [cc] ∧
          pyIsSpace cc = false := by
        refine ⟨(productPart prod review).data ++
          '\n' :: ((categoryPart prod).data ++
            '\n' :: (pre ++ ("Full Review: ".data ++ l2))), c2, ?_, hc2⟩
        rw [hFdata]
        simp [List.append_assoc]
      rw [hwhole, pystrip_eq_self_of hhead h2, hFP]

/-!
Helper lemmas: the review loop.
-/

theorem rowOutcome_eq_skip_iff (m : String → Option MetaRec) (drop : Bool) (r : Review) :
    rowOutcome m drop r = .skip ↔ pyAsin r = none := by
  cases h : pyAsin r with
  | none => simp [rowOutcome, h]
  | some a =>
    simp only [rowOutcome, h]
    constructor
    · intro hh
      split at hh
      · exact RowOut.noConfusion hh
      · split at hh
        · exact RowOut.noConfusion hh
        · exact RowOut.noConfusion hh
    · intro hh
      exact Option.noConfusion hh

theorem pyAsin_isSome_of_not_skip {m : String → Option MetaRec} {drop : Bool} {r : Review}
    (h : rowOutcome m drop r ≠ .skip) : (pyAsin r).isSome := by
  cases hp : pyAsin r with
  | none => exact absurd ((rowOutcome_eq_skip_iff m drop r).mpr hp) h
  | some a => rfl

/-- Under an error-free run, each row with a present identifier contributes
exactly one unit to `written + missing_meta`, and rows without one contribute
nothing. -/
theorem written_dropped_count (m : String → Option MetaRec) (drop : Bool) :
    ∀ rs : List Review, (∀ r ∈ rs, rowOutcome m drop r ≠ .err) →
      (rs.filterMap (emitted m drop)).length +
        rs.countP (fun r => rowOutcome m drop r == .dropped) =
      rs.countP (fun r => (pyAsin r).isSome) := by
  intro rs
  induction rs with
  | nil => intro _; simp
  | cons r rest ih =>
    intro hne
    have hr := hne r (by simp)
    have hrest : ∀ x ∈ rest, rowOutcome m drop x ≠ .err := fun x hx => hne x (by simp [hx])
    have hih := ih hrest
    cases hout : rowOutcome m drop r with
    | skip =>
      have hasin : pyAsin r = none := (rowOutcome_eq_skip_iff m drop r).mp hout
      have e1 : emitted m drop r = none := by unfold emitted; rw [hout]
      have e2 : (rowOutcome m drop r == RowOut.dropped) = false := by rw [hout]; rfl
      have e3 : (pyAsin r).isSome = false := by rw [hasin]; rfl
      simp only [List.filterMap_cons, List.countP_cons, e1, e2, e3]
      simp only [Bool.false_eq_true, if_false]
      omega
    | dropped =>
      have hasin : (pyAsin r).isSome = true :=
        pyAsin_isSome_of_not_skip (by rw [hout]; simp)
      have e1 : emitted m drop r = none := by unfold emitted; rw [hout]
      have e2 : (rowOutcome m drop r == RowOut.dropped) = true := by rw [hout]; rfl
      simp only [List.filterMap_cons, List.countP_cons, e1, e2, hasin, if_true]
      omega
    | written rec =>
      have hasin : (pyAsin r).isSome = true :=
        pyAsin_isSome_of_not_skip (by rw [hout]; simp)
      have e1 : emitted m drop r = some rec := by unfold emitted; rw [hout]
      have e2 : (rowOutcome m drop r == RowOut.dropped) = false := by rw [hout]; rfl
      simp only [List.filterMap_cons, List.countP_cons, e1, e2, hasin, if_true,
        List.length_cons]
      simp only [Bool.false_eq_true, if_false]
      omega
    | err => exact absurd hout hr

theorem processGo_ok (m : String → Option MetaRec) (drop : Bool) :
    ∀ (rs : List Review) (acc : List OutRec) (nin nout bad : Nat) (out : List OutRec)
      (stats : Stats),
      processGo m drop rs acc nin nout bad = .ok (out, stats) →
      out = acc.reverse ++ rs.filterMap (emitted m drop) ∧
      stats.read = nin + rs.length ∧
      stats.written = nout + (rs.filterMap (emitted m drop)).length ∧
      stats.missing_meta = bad + rs.countP (fun r => rowOutcome m drop r == .dropped) ∧
      ∀ r ∈ rs, rowOutcome m drop r ≠ .err := by
  intro rs
  induction rs with
  | nil =>
    intro acc nin nout bad out stats h
    simp only [processGo, Except.ok.injEq, Prod.mk.injEq] at h
    obtain ⟨h1, h2⟩ := h
    subst h1
    subst h2
    simp
  | cons r rest ih =>
    intro acc nin nout bad out stats h
    rw [show processGo m drop (r :: rest) acc nin nout bad =
        (match rowOutcome m drop r with
         | .skip => processGo m drop rest acc (nin + 1) nout bad
         | .dropped => processGo m drop rest acc (nin + 1) nout (bad + 1)
         | .written rec => processGo m drop rest (rec :: acc) (nin + 1) (nout + 1) bad
         | .err => .error ()) from rfl] at h
    cases hout : rowOutcome m drop r with
    | skip =>
      rw [hout] at h
      obtain ⟨o1, o2, o3, o4, o5⟩ := ih acc (nin + 1) nout bad out stats h
      have e1 : emitted m drop r = none := by unfold emitted; rw [hout]
      have e2 : (rowOutcome m drop r == RowOut.dropped) = false := by rw [hout]; rfl
      refine ⟨?_, by simp only [o2, List.length_cons]; omega, ?_, ?_, ?_⟩
      · simp only [List.filterMap_cons, e1]
        exact o1
      · simp only [List.filterMap_cons, e1]
        exact o3
      · simp only [List.countP_cons, e2, Bool.false_eq_true, if_false]
        omega
      · intro x hx
        rcases List.mem_cons.mp hx with hx1 | hx2
        · rw [hx1, hout]; simp
        · exact o5 x hx2
    | dropped =>
      rw [hout] at h
      obtain ⟨o1, o2, o3, o4, o5⟩ := ih acc (nin + 1) nout (bad + 1) out stats h
      have e1 : emitted m drop r = none := by unfold emitted; rw [hout]
      have e2 : (rowOutcome m drop r == RowOut.dropped) = true := by rw [hout]; rfl
      refine ⟨?_, by simp only [o2, List.length_cons]; omega, ?_, ?_, ?_⟩
      · simp only [List.filterMap_cons, e1]
        exact o1
      · simp only [List.filterMap_cons, e1]
        exact o3
      · simp only [List.countP_cons, e2, if_true]
        omega
      · intro x hx
        rcases List.mem_cons.mp hx with hx1 | hx2
        · rw [hx1, hout]; simp
        · exact o5 x hx2
    | written rec =>
      rw [hout] at h
      obtain ⟨o1, o2, o3, o4, o5⟩ := ih (rec :: acc) (nin + 1) (nout + 1) bad out stats h
      have e1 : emitted m drop r = some rec := by unfold emitted; rw [hout]
      have e2 : (rowOutcome m drop r == RowOut.dropped) = false := by rw [hout]; rfl
      refine ⟨?_, by simp only [o2, List.length_cons]; omega, ?_, ?_, ?_⟩
      · simp only [List.filterMap_cons, e1]
        rw [o1]
        simp
      · simp only [List.filterMap_cons, e1, List.length_cons]
        omega
      · simp only [List.countP_cons, e2, Bool.false_eq_true, if_false]
        omega
      · intro x hx
        rcases List.mem_cons.mp hx with hx1 | hx2
        · rw [hx1, hout]; simp
        · exact o5 x hx2
    | err =>
      rw [hout] at h
      exact absurd h (by simp)

/-- Characterization of a successful `process_reviews` run. -/
theorem process_reviews_ok (m : String → Option MetaRec) (drop : Bool) (rs : List Review)
    (out : List OutRec) (stats : Stats)
    (h : process_reviews m rs drop = .ok (out, stats)) :
    out = rs.filterMap (emitted m drop) ∧
    stats.read = rs.length ∧
    stats.written = (rs.filterMap (emitted m drop)).length ∧
    stats.missing_meta = rs.countP (fun r => rowOutcome m drop r == .dropped) ∧
    ∀ r ∈ rs, rowOutcome m drop r ≠ .err := by
  have h2 := processGo_ok m drop rs [] 0 0 0 out stats h
  simpa using h2

/-- A review whose identifier resolves to a truthy (non-empty) metadata
record is written, whichever drop policy is active, provided its date does
not raise. -/
theorem emitted_isSome_of_truthy (m : String → Option MetaRec) (drop : Bool) (r : Review)
    (a : String) (rec : MetaRec) (ha : pyAsin r = some a) (hm : m a = some rec)
    (ht : truthy rec = true) (hne : rowOutcome m drop r ≠ .err) :
    (emitted m drop r).isSome := by
  have hstep : rowOutcome m drop r =
      (match parse_date r.reviewTime r.unixReviewTime with
       | .error _ => .err
       | .ok rt => .written (buildRec a (pyOrRec (m a)) r rt)) := by
    unfold rowOutcome
    rw [ha]
    simp only [hm, ht]
    simp
  cases hpd : parse_date r.reviewTime r.unixReviewTime with
  | error e =>
    rw [hpd] at hstep
    exact absurd hstep hne
  | ok rt =>
    rw [hpd] at hstep
    unfold emitted
    rw [hstep]
    rfl

/-!
Helper lemmas: the metadata index.
-/

theorem insertRow_lookup (m : String → Option MetaRec) (row : MetaRow) (a : String) :
    insertRow m row a =
      (match row.asin with
       | some b => if b = "" then m a else if a = b then some (projectRow row) else m a
       | none => m a) := by
  unfold insertRow
  cases row.asin with
  | none => rfl
  | some b =>
    by_cases hb : b = ""
    · simp [hb]
    · simp [hb]

/-- Every record in the built index is the projection of some input row whose
identifier was present and non-empty. -/
theorem loadGo_some :
    ∀ (rows : List MetaRow) (m : String → Option MetaRec) (a : String) (rec : MetaRec),
      loadGo rows m a = some rec →
      (∃ row ∈ rows, row.asin = some a ∧ a ≠ "" ∧ rec = projectRow row) ∨ m a = some rec := by
  intro rows
  induction rows with
  | nil => intro m a rec h; exact Or.inr h
  | cons row rest ih =>
    intro m a rec h
    rcases ih (insertRow m row) a rec h with h1 | h2
    · obtain ⟨row2, hmem, hrest⟩ := h1
      exact Or.inl ⟨row2, List.mem_cons_of_mem _ hmem, hrest⟩
    · rw [insertRow_lookup] at h2
      cases hasin : row.asin with
      | none => rw [hasin] at h2; exact Or.inr h2
      | some b =>
        rw [hasin] at h2
        have h3 : (if b = "" then m a else if a = b then some (projectRow row) else m a) =
            some rec := h2
        by_cases hb : b = ""
        · rw [if_pos hb] at h3; exact Or.inr h3
        · rw [if_neg hb] at h3
          by_cases hab : a = b
          · rw [if_pos hab] at h3
            refine Or.inl ⟨row, List.mem_cons_self _ _, ?_, ?_, (Option.some.inj h3).symm⟩
            · rw [hasin, hab]
            · rw [hab]; exact hb
          · rw [if_neg hab] at h3; exact Or.inr h3

/-- The loop never distinguishes two index maps that yield equal per-row
outcomes. -/
theorem processGo_congr (m1 m2 : String → Option MetaRec) (drop : Bool)
    (hrow : ∀ r, rowOutcome m1 drop r = rowOutcome m2 drop r) :
    ∀ (rs : List Review) (acc : List OutRec) (nin nout bad : Nat),
      processGo m1 drop rs acc nin nout bad = processGo m2 drop rs acc nin nout bad := by
  intro rs
  induction rs with
  | nil => intro acc nin nout bad; rfl
  | cons r rest ih =>
    intro acc nin nout bad
    rw [show processGo m1 drop (r :: rest) acc nin nout bad =
        (match rowOutcome m1 drop r with
         | .skip => processGo m1 drop rest acc (nin + 1) nout bad
         | .dropped => processGo m1 drop rest acc (nin + 1) nout (bad + 1)
         | .written rec => processGo m1 drop rest (rec :: acc) (nin + 1) (nout + 1) bad
         | .err => .error ()) from rfl]
    rw [show processGo m2 drop (r :: rest) acc nin nout bad =
        (match rowOutcome m2 drop r with
         | .skip => processGo m2 drop rest acc (nin + 1) nout bad
         | .dropped => processGo m2 drop rest acc (nin + 1) nout (bad + 1)
         | .written rec => processGo m2 drop rest (rec :: acc) (nin + 1) (nout + 1) bad
         | .err => .error ()) from rfl]
    rw [hrow r]
    cases rowOutcome m2 drop r with
    | skip => exact ih _ _ _ _
    | dropped => exact ih _ _ _ _
    | written rec => exact ih _ _ _ _
    | err => rfl

/-- Under the drop policy, a key bound to the empty record behaves in each
loop iteration exactly like an absent key. -/
theorem rowOutcome_emptyRec_eq_absent (m : String → Option MetaRec) (a : String) (r : Review) :
    rowOutcome (fun k => if k = a then some emptyRec else m k) true r =
    rowOutcome (fun k => if k = a then none else m k) true r := by
  cases hp : pyAsin r with
  | none => simp only [rowOutcome, hp]
  | some b =>
    simp only [rowOutcome, hp]
    by_cases hb : b = a
    · simp [hb, truthy, emptyRec, pyOrRec]
    · simp [hb]

/-!
Helper lemmas: the price regex always yields a parseable numeral.
-/

theorem takeWhile_all {p : Char → Bool} :
    ∀ l : List Char, (∀ c ∈ l, p c = true) → l.takeWhile p = l := by
  intro l
  induction l with
  | nil => intro _; rfl
  | cons c rest ih =>
    intro hall
    rw [List.takeWhile_cons, if_pos (hall c (by simp))]
    rw [ih (fun x hx => hall x (by simp [hx]))]

theorem dropWhile_all {p : Char → Bool} :
    ∀ l : List Char, (∀ c ∈ l, p c = true) → l.dropWhile p = [] := by
  intro l hall
  exact List.dropWhile_eq_nil_iff.mpr hall

/-- Scan behaviour of `takeWhile`/`dropWhile` on a digit run followed by a
dot. -/
theorem take_drop_digits_dot (fs : List Char) :
    ∀ ds : List Char, (∀ c ∈ ds, Char.isDigit c = true) →
      (ds ++ '.' :: fs).takeWhile Char.isDigit = ds ∧
      (ds ++ '.' :: fs).dropWhile Char.isDigit = '.' :: fs := by
  intro ds
  induction ds with
  | nil => intro _; constructor <;> simp [List.takeWhile_cons, List.dropWhile_cons]
  | cons d rest ih =>
    intro hall
    have hd : Char.isDigit d = true := hall d (by simp)
    have hrest := ih (fun x hx => hall x (by simp [hx]))
    constructor
    · rw [List.cons_append, List.takeWhile_cons, if_pos hd, hrest.1]
    · rw [List.cons_append, List.dropWhile_cons, if_pos hd, hrest.2]

theorem normNum_dot (t : List Char) : normNum ('.' :: t) = '0' :: '.' :: t := rfl

theorem normNum_not_dot (d : Char) (t : List Char) (hd : d ≠ '.') :
    normNum (d :: t) = d :: t := by
  unfold normNum
  split
  · rename_i heq
    injection heq with h1 h2
    exact absurd h1 hd
  · rfl

theorem pyfloat_digits (l : List Char) (hne : l ≠ [])
    (hall : ∀ c ∈ l, Char.isDigit c = true) : (pyfloat l).isSome = true := by
  unfold pyfloat
  rw [dropWhile_all l hall, takeWhile_all l hall]
  simp [hne]

theorem pyfloat_digits_dot_digits (ds fs : List Char) (hds : ds ≠ [])
    (hfs : fs ≠ []) (hdsall : ∀ c ∈ ds, Char.isDigit c = true)
    (hfsall : ∀ c ∈ fs, Char.isDigit c = true) :
    (pyfloat (ds ++ '.' :: fs)).isSome = true := by
  obtain ⟨htake, hdrop⟩ := take_drop_digits_dot fs ds hdsall
  unfold pyfloat
  rw [hdrop, htake]
  simp [List.all_eq_true.mpr hfsall, hfs, hds]

/-- Shape of any candidate the regex alternatives can produce: a bare
decimal, a pure digit run, or digits-dot-digits. -/
theorem numAt_cases (l num : List Char) (h : numAt l = some num) :
    (∃ fs, num = '.' :: fs ∧ fs ≠ [] ∧ ∀ c ∈ fs, Char.isDigit c = true) ∨
    (num ≠ [] ∧ ∀ c ∈ num, Char.isDigit c = true) ∨
    (∃ ds fs, num = ds ++ '.' :: fs ∧ ds ≠ [] ∧ fs ≠ [] ∧
      (∀ c ∈ ds, Char.isDigit c = true) ∧ ∀ c ∈ fs, Char.isDigit c = true) := by
  unfold numAt at h
  by_cases h1 : l.takeWhile Char.isDigit = []
  · rw [if_pos h1] at h
    cases l with
    | nil => exact Option.noConfusion h
    | cons c r2 =>
      have h2 : (if c = '.' then
          if r2.takeWhile Char.isDigit = [] then none
          else some ('.' :: r2.takeWhile Char.isDigit)
        else none) = some num := h
      by_cases hc : c = '.'
      · rw [if_pos hc] at h2
        by_cases hfs : r2.takeWhile Char.isDigit = []
        · rw [if_pos hfs] at h2; exact Option.noConfusion h2
        · rw [if_neg hfs] at h2
          exact Or.inl ⟨r2.takeWhile Char.isDigit, (Option.some.inj h2).symm, hfs,
            fun x hx => List.mem_takeWhile_imp hx⟩
      · rw [if_neg hc] at h2; exact Option.noConfusion h2
  · rw [if_neg h1] at h
    cases hd : l.dropWhile Char.isDigit with
    | nil =>
      rw [hd] at h
      have h2 : some (l.takeWhile Char.isDigit) = some num := h
      refine Or.inr (Or.inl ⟨?_, ?_⟩)
      · rw [← Option.some.inj h2]; exact h1
      · rw [← Option.some.inj h2]; exact fun x hx => List.mem_takeWhile_imp hx
    | cons c r2 =>
      rw [hd] at h
      have h2 : (if c = '.' then
          if r2.takeWhile Char.isDigit = [] then some (l.takeWhile Char.isDigit)
          else some (l.takeWhile Char.isDigit ++ '.' :: r2.takeWhile Char.isDigit)
        else some (l.takeWhile Char.isDigit)) = some num := h
      by_cases hc : c = '.'
      · rw [if_pos hc] at h2
        by_cases hfs : r2.takeWhile Char.isDigit = []
        · rw [if_pos hfs] at h2
          refine Or.inr (Or.inl ⟨?_, ?_⟩)
          · rw [← Option.some.inj h2]; exact h1
          · rw [← Option.some.inj h2]; exact fun x hx => List.mem_takeWhile_imp hx
        · rw [if_neg hfs] at h2
          exact Or.inr (Or.inr ⟨l.takeWhile Char.isDigit, r2.takeWhile Char.isDigit,
            (Option.some.inj h2).symm, h1, hfs,
            fun x hx => List.mem_takeWhile_imp hx,
            fun x hx => List.mem_takeWhile_imp hx⟩)
      · rw [if_neg hc] at h2
        refine Or.inr (Or.inl ⟨?_, ?_⟩)
        · rw [← Option.some.inj h2]; exact h1
        · rw [← Option.some.inj h2]; exact fun x hx => List.mem_takeWhile_imp hx

/-- Every candidate the regex alternatives produce parses under the
(restricted) float grammar once the leading-dot normalization is applied:
the `try/except` around `float(...)` is dead code. -/
theorem pyfloat_normNum_isSome (num : List Char)
    (hc : (∃ fs, num = '.' :: fs ∧ fs ≠ [] ∧ ∀ c ∈ fs, Char.isDigit c = true) ∨
      (num ≠ [] ∧ ∀ c ∈ num, Char.isDigit c = true) ∨
      (∃ ds fs, num = ds ++ '.' :: fs ∧ ds ≠ [] ∧ fs ≠ [] ∧
        (∀ c ∈ ds, Char.isDigit c = true) ∧ ∀ c ∈ fs, Char.isDigit c = true)) :
    (pyfloat (normNum num)).isSome = true := by
  rcases hc with ⟨fs, rfl, hfs, hfsall⟩ | ⟨hne, hall⟩ | ⟨ds, fs, rfl, hds, hfs, hdsall, hfsall⟩
  · rw [normNum_dot]
    rw [show ('0' :: '.' :: fs) = ['0'] ++ '.' :: fs from rfl]
    refine pyfloat_digits_dot_digits ['0'] fs (by simp) hfs ?_ hfsall
    intro c hc
    rw [List.mem_singleton.mp hc]
    decide
  · cases num with
    | nil => exact absurd rfl hne
    | cons d t =>
      have hd : Char.isDigit d = true := hall d (by simp)
      have hdne : d ≠ '.' := by
        intro hh
        rw [hh] at hd
        exact absurd hd (by decide)
      rw [normNum_not_dot d t hdne]
      exact pyfloat_digits (d :: t) (by simp) hall
  · cases ds with
    | nil => exact absurd rfl hds
    | cons d ds' =>
      have hd : Char.isDigit d = true := hdsall d (by simp)
      have hdne : d ≠ '.' := by
        intro hh
        rw [hh] at hd
        exact absurd hd (by decide)
      rw [show ((d :: ds') ++ '.' :: fs) = d :: (ds' ++ '.' :: fs) from rfl,
        normNum_not_dot d _ hdne,
        show (d :: (ds' ++ '.' :: fs)) = (d :: ds') ++ '.' :: fs from rfl]
      exact pyfloat_digits_dot_digits (d :: ds') fs (by simp) hfs hdsall hfsall

theorem findNum_sound : ∀ (b : Bool) (l : List Char) (num : List Char),
    findNum b l = some num → ∃ l2, numAt l2 = some num := by
  intro b l
  induction l generalizing b with
  | nil => intro num h; exact Option.noConfusion h
  | cons c rest ih =>
    intro num h
    rw [show findNum b (c :: rest) =
        (if b then findNum c.isDigit rest
         else match numAt (c :: rest) with
           | some m => some m
           | none => findNum c.isDigit rest) from rfl] at h
    by_cases hb : b = true
    · rw [if_pos hb] at h
      exact ih c.isDigit num h
    · rw [if_neg hb] at h
      cases hna : numAt (c :: rest) with
      | some mm =>
        rw [hna] at h
        exact ⟨c :: rest, by rw [hna, Option.some.inj h]⟩
      | none =>
        rw [hna] at h
        exact ih c.isDigit num h

/-- Reasons `parse_price` can return `None`: a falsy input, a garbage token,
or no regex match — never a failing `float(...)` conversion. -/
theorem parse_price_none_reasons (v : PVal) (h : parse_price v = none) :
    pvalFalsy v = true ∨
    (pystrip (pvalStr v) = "." ∨ pystrip (pvalStr v) = "-" ∨
      pystrip (pvalStr v) = "N/A" ∨ pystrip (pvalStr v) = "na" ∨
      pystrip (pvalStr v) = "NA" ∨ pystrip (pvalStr v) = "") ∨
    findNum false ((pystrip (pvalStr v)).data.filter (fun c => c ≠ ',')) = none := by
  by_cases h1 : pvalFalsy v = true
  · exact Or.inl h1
  · unfold parse_price at h
    rw [if_neg h1] at h
    by_cases h2 : pystrip (pvalStr v) = "." ∨ pystrip (pvalStr v) = "-" ∨
        pystrip (pvalStr v) = "N/A" ∨ pystrip (pvalStr v) = "na" ∨
        pystrip (pvalStr v) = "NA" ∨ pystrip (pvalStr v) = ""
    · exact Or.inr (Or.inl h2)
    · rw [if_neg h2] at h
      cases h3 : findNum false ((pystrip (pvalStr v)).data.filter (fun c => c ≠ ',')) with
      | none => exact Or.inr (Or.inr rfl)
      | some num =>
        rw [h3] at h
        exfalso
        have h4 : pyfloat (normNum num) = none := h
        obtain ⟨l2, hl2⟩ := findNum_sound false _ num h3
        have hs := pyfloat_normNum_isSome num (numAt_cases l2 num hl2)
        rw [h4] at hs
        simp at hs

/-- The only way `parse_date` can raise: a truthy timestamp whose UTC year
leaves the 1..9999 range supported by `datetime`. -/
theorem parse_date_error_reason (txt : Option String) (ts : Option Int)
    (h : parse_date txt ts = .error ()) :
    ∃ t, ts = some t ∧ t ≠ 0 ∧
      ¬(1 ≤ (civilFromDays (t.fdiv 86400)).1 ∧ (civilFromDays (t.fdiv 86400)).1 ≤ 9999) := by
  cases ts with
  | none =>
    have h2 : (Except.ok (parse_date_text txt) : Except Unit (Option String)) = .error () := h
    exact Except.noConfusion h2
  | some t =>
    have h2 : (if t ≠ 0 then (utcfromtimestamp t).map (fun c => some (formatYMD c))
        else .ok (parse_date_text txt)) = .error () := h
    by_cases ht : t = 0
    · rw [if_neg (fun hh => hh ht)] at h2
      exact Except.noConfusion h2
    · rw [if_pos ht] at h2
      refine ⟨t, rfl, ht, ?_⟩
      intro hy
      unfold utcfromtimestamp at h2
      rw [if_pos hy] at h2
      have h3 : (Except.ok (some (formatYMD (civilFromDays (t.fdiv 86400)))) :
          Except Unit (Option String)) = .error () := h2
      exact Except.noConfusion h3

/-!
Claim theorems.
-/

/-- C3: the Price Normalizer returns `None` for `""`, `"N/A"`, `"-"`, `"."`
and `"abc"`; `19.99` for `"$19.99"`; `1234.5` for `"1,234.50"`; and `0.99`
for `".99"` (the extracted numeral being the first maximal digit run with an
optional fractional part, not adjacent to an outside digit, with a leading
zero prepended to a bare-decimal match). -/
theorem C3_price_normalizer_examples :
    parse_price (.s "") = none ∧ parse_price (.s "N/A") = none ∧
    parse_price (.s "-") = none ∧ parse_price (.s ".") = none ∧
    parse_price (.s "abc") = none ∧
    parse_price (.s "$19.99") = some (19.99 : ℚ) ∧
    parse_price (.s "1,234.50") = some (1234.5 : ℚ) ∧
    parse_price (.s ".99") = some (0.99 : ℚ) := by
  refine ⟨by decide, by decide, by decide, by decide, by decide, ?_, ?_, ?_⟩
  · have h : parse_price (.s "$19.99") = some (decToRat ['1','9'] ['9','9']) := rfl
    have h1 : digitsToNat ['1','9'] = 19 := rfl
    have h2 : digitsToNat ['9','9'] = 99 := rfl
    rw [h]; simp only [decToRat, h1, h2]; norm_num
  · have h : parse_price (.s "1,234.50") = some (decToRat ['1','2','3','4'] ['5','0']) := rfl
    have h1 : digitsToNat ['1','2','3','4'] = 1234 := rfl
    have h2 : digitsToNat ['5','0'] = 50 := rfl
    rw [h]; simp only [decToRat, h1, h2]; norm_num
  · have h : parse_price (.s ".99") = some (decToRat ['0'] ['9','9']) := rfl
    have h1 : digitsToNat ['0'] = 0 := rfl
    have h2 : digitsToNat ['9','9'] = 99 := rfl
    rw [h]; simp only [decToRat, h1, h2]; norm_num

/-- C9: at the Price Normalizer's interface the already-numeric input `0`
returns `None` — the leading emptiness guard treats numeric zero exactly
like an absent price — whereas the string input `"0"` returns the number
zero. -/
theorem C9_numeric_zero_price :
    parse_price (.i 0) = none ∧ parse_price .null = none ∧
    parse_price (.i 0) = parse_price .null ∧
    parse_price (.s "0") = some (0 : ℚ) := by
  refine ⟨by decide, by decide, by decide, ?_⟩
  have h : parse_price (.s "0") = some (digitsToNat ['0'] : ℚ) := rfl
  have h1 : digitsToNat ['0'] = 0 := rfl
  rw [h, h1]; norm_num

/-- C4: a present non-zero Unix timestamp always takes precedence — the
result is its UTC conversion regardless of the text field, and `1243296000`
yields `"2009-05-26"`; a timestamp of `0` falls through to the text field,
which is parsed strictly as `"MM DD, YYYY"` (`0` with `"05 26, 2009"` yields
`"2009-05-26"`); an invalid text date such as `"13 99, 2009"` with no usable
timestamp yields `None`. -/
theorem C4_date_resolution :
    (∀ txt txt2 t, t ≠ 0 → parse_date txt (some t) = parse_date txt2 (some t)) ∧
    (∀ txt t, t ≠ 0 →
      parse_date txt (some t) = (utcfromtimestamp t).map (fun c => some (formatYMD c))) ∧
    (∀ txt, parse_date txt (some 0) = parse_date txt none) ∧
    parse_date (some "ignored text") (some 1243296000) = .ok (some "2009-05-26") ∧
    parse_date (some "05 26, 2009") (some 0) = .ok (some "2009-05-26") ∧
    parse_date (some "13 99, 2009") none = .ok none := by
  refine ⟨?_, ?_, ?_, by decide, by decide, by decide⟩
  · intro txt txt2 t ht
    show (if t ≠ 0 then (utcfromtimestamp t).map (fun c => some (formatYMD c))
        else .ok (parse_date_text txt)) =
      (if t ≠ 0 then (utcfromtimestamp t).map (fun c => some (formatYMD c))
        else .ok (parse_date_text txt2))
    rw [if_pos ht, if_pos ht]
  · intro txt t ht
    show (if t ≠ 0 then (utcfromtimestamp t).map (fun c => some (formatYMD c))
        else .ok (parse_date_text txt)) = _
    rw [if_pos ht]
  · intro txt
    have h1 : parse_date txt (some 0) = .ok (parse_date_text txt) := by
      show (if (0 : Int) ≠ 0 then (utcfromtimestamp 0).map (fun c => some (formatYMD c))
          else .ok (parse_date_text txt)) = .ok (parse_date_text txt)
      rw [if_neg (by simp)]
    have h2 : parse_date txt none = .ok (parse_date_text txt) := rfl
    rw [h1, h2]

/-- Witness for C4 at concrete inputs. -/
theorem C4_witness :
    parse_date (some "completely different") (some 1243296000) =
      parse_date (some "05 26, 2009") (some 1243296000) :=
  C4_date_resolution.1 (some "completely different") (some "05 26, 2009") 1243296000
    (by decide)

/-- C5 counterexample: the Date Normalizer is not total — the timestamp
253402300800 (one second past 9999-12-31T23:59:59Z) makes
`datetime.utcfromtimestamp` raise, and the exception is not caught. -/
theorem C5_counterexample : parse_date none (some 253402300800) = .error () := by decide

/-- C5 (amended): the Price Normalizer is total — `None` arises only from a
falsy input, a garbage token, or a failed regex search, never from the
`float(...)` conversion; the Date Normalizer degrades unparseable text dates
to `None` but raises for a non-zero timestamp whose UTC year leaves 1..9999;
and a review row missing its product identifier is skipped silently: it is
neither written nor counted as missing metadata, so over any successful run
`written + missing_meta` equals the number of rows with a present non-empty
identifier. -/
theorem C5_error_tolerance :
    (∀ v : PVal, parse_price v = none →
      pvalFalsy v = true ∨
      (pystrip (pvalStr v) = "." ∨ pystrip (pvalStr v) = "-" ∨
        pystrip (pvalStr v) = "N/A" ∨ pystrip (pvalStr v) = "na" ∨
        pystrip (pvalStr v) = "NA" ∨ pystrip (pvalStr v) = "") ∨
      findNum false ((pystrip (pvalStr v)).data.filter (fun c => c ≠ ',')) = none) ∧
    (∀ txt ts, parse_date txt ts = .error () →
      ∃ t, ts = some t ∧ t ≠ 0 ∧
        ¬(1 ≤ (civilFromDays (t.fdiv 86400)).1 ∧
          (civilFromDays (t.fdiv 86400)).1 ≤ 9999)) ∧
    (∀ txt, ∃ o, parse_date txt none = .ok o) ∧
    (∀ (m : String → Option MetaRec) (rs : List Review) (drop : Bool)
        (out : List OutRec) (stats : Stats),
      process_reviews m rs drop = .ok (out, stats) →
      stats.written + stats.missing_meta = rs.countP (fun r => (pyAsin r).isSome) ∧
      ∀ r ∈ rs, pyAsin r = none → emitted m drop r = none) := by
  refine ⟨fun v h => parse_price_none_reasons v h,
    fun txt ts h => parse_date_error_reason txt ts h,
    fun txt => ⟨parse_date_text txt, rfl⟩, ?_⟩
  intro m rs drop out stats h
  obtain ⟨o1, o2, o3, o4, o5⟩ := process_reviews_ok m drop rs out stats h
  constructor
  · rw [o3, o4]
    exact written_dropped_count m drop rs o5
  · intro r hr ha
    unfold emitted
    rw [(rowOutcome_eq_skip_iff m drop r).mpr ha]

/-- Witness for C5 at concrete inputs. -/
theorem C5_witness :
    pvalFalsy (PVal.s "abc") = true ∨
    (pystrip (pvalStr (PVal.s "abc")) = "." ∨ pystrip (pvalStr (PVal.s "abc")) = "-" ∨
      pystrip (pvalStr (PVal.s "abc")) = "N/A" ∨ pystrip (pvalStr (PVal.s "abc")) = "na" ∨
      pystrip (pvalStr (PVal.s "abc")) = "NA" ∨ pystrip (pvalStr (PVal.s "abc")) = "") ∨
    findNum false ((pystrip (pvalStr (PVal.s "abc"))).data.filter (fun c => c ≠ ',')) =
      none :=
  C5_error_tolerance.1 (PVal.s "abc") (by decide)

/-- C1 counterexample: a review whose identifier has an entry in the index
produces no output record when that entry is the empty record and the drop
policy is on — the missing-metadata test is dict truthiness, not key
presence, so the claim's "has an entry" qualification is too weak. -/
theorem C1_counterexample :
    load_asin_meta [{ asin := some "A" }] none "A" = some emptyRec ∧
    pyAsin { asin := some "A" } = some "A" ∧
    process_reviews (load_asin_meta [{ asin := some "A" }] none)
      [{ asin := some "A" }] true = .ok ([], ⟨1, 0, 1⟩) := by
  exact ⟨rfl, rfl, rfl⟩

/-- C1 (amended): in any successful run, for every review row whose present,
non-empty product identifier maps to a non-empty (truthy) metadata record,
exactly one output record is produced; records are written in input order
(the output is the order-preserving `filterMap` of the input); over the whole
run `written + missing_meta ≤ read`, with equality exactly when every counted
review row has a present, non-empty product identifier. -/
theorem C1_join_completeness (m : String → Option MetaRec) (rs : List Review) (drop : Bool)
    (out : List OutRec) (stats : Stats)
    (h : process_reviews m rs drop = .ok (out, stats)) :
    out = rs.filterMap (emitted m drop) ∧
    (∀ r ∈ rs, ∀ a rec, pyAsin r = some a → m a = some rec → truthy rec = true →
      (emitted m drop r).isSome = true) ∧
    stats.written + stats.missing_meta ≤ stats.read ∧
    (stats.written + stats.missing_meta = stats.read ↔
      ∀ r ∈ rs, (pyAsin r).isSome = true) := by
  obtain ⟨o1, o2, o3, o4, o5⟩ := process_reviews_ok m drop rs out stats h
  have hcount := written_dropped_count m drop rs o5
  refine ⟨o1, ?_, ?_, ?_⟩
  · intro r hr a rec ha hm ht
    exact emitted_isSome_of_truthy m drop r a rec ha hm ht (o5 r hr)
  · rw [o3, o4, o2, hcount]
    exact List.countP_le_length _
  · rw [o3, o4, o2, hcount]
    exact List.countP_eq_length

/-- Witness for C1 at a concrete successful run. -/
theorem C1_witness :
    process_reviews (fun _ => none) [({} : Review)] true = .ok ([], ⟨1, 0, 0⟩) ∧
    (([] : List OutRec) = [({} : Review)].filterMap (emitted (fun _ => none) true) ∧
     (∀ r ∈ [({} : Review)], ∀ a rec, pyAsin r = some a →
        (fun (_ : String) => (none : Option MetaRec)) a = some rec → truthy rec = true →
        (emitted (fun _ => none) true r).isSome = true) ∧
     (⟨1, 0, 0⟩ : Stats).written + (⟨1, 0, 0⟩ : Stats).missing_meta ≤
        (⟨1, 0, 0⟩ : Stats).read ∧
     ((⟨1, 0, 0⟩ : Stats).written + (⟨1, 0, 0⟩ : Stats).missing_meta =
          (⟨1, 0, 0⟩ : Stats).read ↔
        ∀ r ∈ [({} : Review)], (pyAsin r).isSome = true)) :=
  ⟨rfl, C1_join_completeness (fun _ => none) [({} : Review)] true [] ⟨1, 0, 0⟩ rfl⟩

/-- C2 counterexample: the index keeps the raw `title` of the source row
verbatim — it is not the sanitized form `strip_html` would produce, so the
Metadata Index Builder applies no text normalization. -/
theorem C2_counterexample :
    load_asin_meta [{ asin := some "A", title := some (some "  <b>Hi</b>  ") }] none "A" =
      some { title := some (some "  <b>Hi</b>  ") } ∧
    strip_html (some "  <b>Hi</b>  ") = "Hi" ∧
    ("  <b>Hi</b>  " : String) ≠ "Hi" := by
  exact ⟨rfl, by decide, by decide⟩

/-- C2 (amended): every record of the built index is the field projection of
some input row, and the projection copies the text fields `title`, `brand`
and `main_cat` verbatim — no HTML unescaping, tag stripping or trimming is
applied during index construction. -/
theorem C2_no_sanitization (rows : List MetaRow) (cap : Option Nat) (a : String)
    (rec : MetaRec) (h : load_asin_meta rows cap a = some rec) :
    ∃ row ∈ rows, row.asin = some a ∧ a ≠ "" ∧ rec = projectRow row ∧
      rec.title = row.title ∧ rec.brand = row.brand ∧ rec.main_cat = row.main_cat := by
  unfold load_asin_meta at h
  rcases loadGo_some _ _ a rec h with h1 | h2
  · obtain ⟨row, hmem, hasin, hane, hrec⟩ := h1
    have hmem2 : row ∈ rows := by
      cases cap with
      | none => exact hmem
      | some n =>
        have hmem3 : row ∈ (if n = 0 then rows else rows.take n) := hmem
        by_cases hn : n = 0
        · rw [if_pos hn] at hmem3; exact hmem3
        · rw [if_neg hn] at hmem3; exact List.take_subset n rows hmem3
    exact ⟨row, hmem2, hasin, hane, hrec, by rw [hrec]; rfl, by rw [hrec]; rfl,
      by rw [hrec]; rfl⟩
  · exact Option.noConfusion h2

/-- Witness for C2 at a concrete index. -/
theorem C2_witness :
    ∃ row ∈ [({ asin := some "A", title := some (some "<b>T</b>") } : MetaRow)],
      row.asin = some "A" ∧ "A" ≠ "" ∧
      ({ title := some (some "<b>T</b>") } : MetaRec) = projectRow row ∧
      ({ title := some (some "<b>T</b>") } : MetaRec).title = row.title ∧
      ({ title := some (some "<b>T</b>") } : MetaRec).brand = row.brand ∧
      ({ title := some (some "<b>T</b>") } : MetaRec).main_cat = row.main_cat :=
  C2_no_sanitization [{ asin := some "A", title := some (some "<b>T</b>") }] none "A"
    { title := some (some "<b>T</b>") } rfl

/-- C6: the pipeline is deterministic — two runs over equal metadata inputs,
equal review inputs and the same drop policy produce equal emitted-record
sequences and equal stats (the serialized output file is a function of
those records, so equal runs are byte-identical). -/
theorem C6_determinism (mr1 mr2 : List MetaRow) (rv1 rv2 : List Review) (d1 d2 : Bool)
    (hm : mr1 = mr2) (hr : rv1 = rv2) (hd : d1 = d2) :
    pipeline mr1 rv1 d1 = pipeline mr2 rv2 d2 := by
  rw [hm, hr, hd]

/-- Witness for C6 at concrete inputs. -/
theorem C6_witness :
    pipeline [({ asin := some "B1", title := some (some "Toy Car") } : MetaRow)]
      [({ asin := some "B1" } : Review)] true =
    pipeline [({ asin := some "B1", title := some (some "Toy Car") } : MetaRow)]
      [({ asin := some "B1" } : Review)] true :=
  C6_determinism _ _ _ _ _ _ rfl rfl rfl

/-- C7 counterexample: with an empty review body the rendered text does NOT
end with the literal `"Full Review: "` — the final `.strip()` removes the
trailing space, leaving `"Full Review:"`. -/
theorem C7_counterexample :
    bodyOf ({} : Review) = "" ∧
    make_embed_text emptyRec ({} : Review) =
      "Product: ASIN \nCategory: Toys & Games\nFull Review:" ∧
    ¬ ("Full Review: ".data <:+ (make_embed_text emptyRec ({} : Review)).data) := by
  refine ⟨rfl, by decide, by decide⟩

/-- C7 (amended): the rendered text always ends with the Full-Review
component, preceded by a newline; the component is `"Full Review: {body}"`
when the stripped body is non-empty, and exactly `"Full Review:"` — without
the trailing space, which the final strip removes — when the body is
empty. -/
theorem C7_full_review_last (prod : MetaRec) (review : Review) :
    ∃ pre : String, make_embed_text prod review = pre ++ "\n" ++ fullReviewPart review := by
  obtain ⟨pre, hdata, hshape⟩ := embed_split prod review
  cases hshape with
  | inl h0 =>
    refine ⟨productPart prod review ++ "\n" ++ categoryPart prod, ?_⟩
    apply str_eq_of_data
    rw [hdata, h0]
    simp [String.data_append, List.append_assoc]
  | inr h1 =>
    obtain ⟨pre0, hpre0⟩ := h1
    refine ⟨productPart prod review ++ "\n" ++ categoryPart prod ++ "\n" ++ String.mk pre0,
      ?_⟩
    apply str_eq_of_data
    rw [hdata, hpre0]
    simp [String.data_append, List.append_assoc]

/-- C8 counterexample: with `category = [""]` (non-empty sequence, empty
first element) and `main_cat = "Foo"`, the category line is
`"Category: Toys & Games"` — neither the first element of the sequence nor
the main category — so the claimed fallback order is wrong for this input. -/
theorem C8_counterexample :
    cat_line { category := some (some [""]), main_cat := some (some "Foo") } =
      "Toys & Games" ∧
    make_embed_text { category := some (some [""]), main_cat := some (some "Foo") }
      ({} : Review) = "Product: ASIN \nCategory: Toys & Games\nFull Review:" ∧
    ("" : String) ≠ "Toys & Games" ∧ ("Foo" : String) ≠ "Toys & Games" := by
  refine ⟨rfl, by decide, by decide, by decide⟩

/-- C8 (amended): the rendered text always contains a category line computed
by this rule: the first element of the categories sequence when the sequence
is non-empty and that element is non-empty; the main category when the
sequence is empty and the main category is non-empty; the literal
`"Toys & Games"` otherwise — in particular a non-empty sequence whose first
element is empty falls directly to the default, skipping the main
category. -/
theorem C8_category_fallback (prod : MetaRec) (review : Review) :
    cat_line prod = categoryRule prod ∧
    ∃ pre t : String, make_embed_text prod review =
      pre ++ "\n" ++ ("Category: " ++ categoryRule prod) ++ "\n" ++ t := by
  have hcat : cat_line prod = categoryRule prod := by
    unfold cat_line categoryRule
    cases hcats : (prod.category.join).getD [] with
    | nil => rfl
    | cons c cs => rfl
  refine ⟨hcat, ?_⟩
  obtain ⟨pre, hdata, _⟩ := embed_split prod review
  refine ⟨productPart prod review, String.mk (pre ++ (fullReviewPart review).data), ?_⟩
  apply str_eq_of_data
  rw [hdata, ← hcat]
  simp [String.data_append, List.append_assoc, categoryPart]

/-- C10: a metadata row with a non-empty identifier but none of the retained
fields projects to the empty record; under the drop policy a key bound to
the empty record is indistinguishable from an absent key — every review for
it is dropped and counted — because the join tests the looked-up record's
truthiness, not key presence. -/
theorem C10_empty_record_drop (row : MetaRow)
    (h : row.title = none ∧ row.brand = none ∧ row.main_cat = none ∧
      row.category = none ∧ row.price = none ∧ row.rank = none) :
    projectRow row = emptyRec ∧
    (∀ (m : String → Option MetaRec) (a : String) (rs : List Review),
      process_reviews (fun k => if k = a then some emptyRec else m k) rs true =
      process_reviews (fun k => if k = a then none else m k) rs true) ∧
    process_reviews (load_asin_meta [{ asin := some "B" }] none)
      [{ asin := some "B" }] true = .ok ([], ⟨1, 0, 1⟩) := by
  refine ⟨?_, ?_, rfl⟩
  · obtain ⟨h1, h2, h3, h4, h5, h6⟩ := h
    unfold projectRow emptyRec
    rw [h1, h2, h3, h4, h5, h6]
    rfl
  · intro m a rs
    unfold process_reviews
    exact processGo_congr _ _ true (fun r => rowOutcome_emptyRec_eq_absent m a r) rs [] 0 0 0

/-- Witness for C10 at a concrete row and run. -/
theorem C10_witness :
    projectRow { asin := some "A" } = emptyRec ∧
    process_reviews
        (fun k => if k = "A" then some emptyRec else (fun _ => none : String → Option MetaRec) k)
        [{ asin := some "A" }] true =
      process_reviews
        (fun k => if k = "A" then none else (fun _ => none : String → Option MetaRec) k)
        [{ asin := some "A" }] true := by
  have h := C10_empty_record_drop { asin := some "A" } ⟨rfl, rfl, rfl, rfl, rfl, rfl⟩
  exact ⟨h.1, h.2.1 (fun _ => none) "A" [{ asin := some "A" }]⟩
